import Mathlib

/-!
Verification of the decision/tracking core of the Droidrun smart-shopper
repository (`app/tracker.py`, `app/utils.py`, `app/tools.py`).

Modelling conventions:
* Python floats are modelled as rationals (`ℚ`); all number handling in the
  core is decimal-string parsing plus ordered-field arithmetic.
* Python `None` for optional text arguments is modelled by `Option String`
  where the source distinguishes `None` from `""` (`price_text is None`,
  `rating is None`), and by the empty string where the source only tests
  truthiness (`not title`, `not identifier`), for which `None` and `""`
  behave identically.
* Python dicts that are built by insertion (`self.items`, `self.prices`,
  `per_app`) are modelled as association lists in insertion order, which is
  exactly dict iteration order; `set` is modelled as a duplicate-free list,
  only membership is observed.
* Return values that the source renders as formatted strings or dicts are
  modelled as inductive results carrying the same data fields.
* Whitespace stripping and lowercasing are modelled over the ASCII range
  (the inputs of interest are ASCII shop-app text).
-/

deriving instance DecidableEq for Except

namespace Shopper

/-!
Executable rational arithmetic.  Lean's `Rat.add`/`Rat.mul`/`Rat.sub` do not
reduce in the kernel, so the embedding uses `mkRat`-based operations and the
lemmas `qadd_eq`, `qmul_eq`, `qsub_eq`, `qdiv10_eq`, `qneg_eq` proving them
equal to the standard field operations on `ℚ`.
-/

/-- Executable `a + b` on `ℚ`. -/
def qadd (a b : ℚ) : ℚ := mkRat (a.num * b.den + b.num * a.den) (a.den * b.den)

/-- Executable `a * b` on `ℚ`. -/
def qmul (a b : ℚ) : ℚ := mkRat (a.num * b.num) (a.den * b.den)

/-- Executable `a - b` on `ℚ`. -/
def qsub (a b : ℚ) : ℚ := mkRat (a.num * b.den - b.num * a.den) (a.den * b.den)

/-- Executable `a / 10 ^ k` on `ℚ`. -/
def qdiv10 (a : ℚ) (k : Nat) : ℚ := mkRat a.num (a.den * 10 ^ k)

/-- Executable `-a` on `ℚ`. -/
def qneg (a : ℚ) : ℚ := mkRat (-a.num) a.den

/-- ASCII whitespace, the character class Python's `str.strip` / `\s` use on
ASCII input: space, tab, newline, carriage return, vertical tab, form feed. -/
def pyWs (c : Char) : Bool :=
  c = ' ' ∨ c = Char.ofNat 9 ∨ c = Char.ofNat 10 ∨ c = Char.ofNat 13 ∨
    c = Char.ofNat 11 ∨ c = Char.ofNat 12

/-- Python `str.strip()` on a character list. -/
def pyStripL (cs : List Char) : List Char :=
  ((cs.dropWhile pyWs).reverse.dropWhile pyWs).reverse

/-- Python `str.strip()`. -/
def pyStripS (s : String) : String := ⟨pyStripL s.data⟩

/-- Python `str.lower()` (ASCII model, character-wise). -/
def pyLowerS (s : String) : String := ⟨s.data.map Char.toLower⟩

/-- `html.escape` replacement for a single character (`&`, `<`, `>`, `"`,
`'` are replaced; Python replaces `&` first, so the result equals this
character-wise map). -/
def escChar (c : Char) : List Char :=
  if c = '&' then "&amp;".data
  else if c = '<' then "&lt;".data
  else if c = '>' then "&gt;".data
  else if c = Char.ofNat 34 then "&quot;".data
  else if c = Char.ofNat 39 then "&#x27;".data
  else [c]

/-- Python `html.escape(s)` (quote=True, the default). -/
def htmlEscapeS (s : String) : String := ⟨s.data.flatMap escChar⟩

/-- Value of a list of decimal digits. -/
def digitsToNat (cs : List Char) : Nat :=
  cs.foldl (fun a c => a * 10 + (c.toNat - 48)) 0

/-- Value of `intPart.fracPart` as a rational (executable form). -/
def decValue (ip fp : List Char) : ℚ :=
  mkRat (digitsToNat ip * 10 ^ fp.length + digitsToNat fp) (10 ^ fp.length)

/-- Python `float(s)` restricted to strings made of digits and dots (the
only shape reaching it in `_parse_number` and the `parse_budget` fallback):
accepts `d+`, `d+.d*`, `.d+` and `d*.d+`; multiple dots or no digits raise
`ValueError`, modelled as `none`. -/
def floatDigitsDots (cs : List Char) : Option ℚ :=
  match cs.splitOn '.' with
  | [ds] =>
      if ds ≠ [] ∧ ds.all Char.isDigit then some (digitsToNat ds : ℚ) else none
  | [ip, fp] =>
      if (ip ++ fp) ≠ [] ∧ (ip ++ fp).all Char.isDigit then
        some (decValue ip fp)
      else none
  | _ => none

/-- `PriceTracker.log_price`'s inner `_parse_number`: strip every character
that is not a digit or a dot, then `float`; any failure yields `None`. -/
def parse_number (x : String) : Option ℚ :=
  let s := x.data.filter fun c => c.isDigit ∨ c = '.'
  if s.isEmpty then none else floatDigitsDots s

/-- Error cases of `parse_budget` (`ValueError` messages in the source). -/
inductive BudgetErr
  /-- "No budget provided" -/
  | noBudget
  /-- "Could not parse budget from raw" (also covers the fallback
  `float` ValueError, re-raised with the same message) -/
  | couldNotParse (raw : String)
  /-- "Budget must be positive" -/
  | notPositive
deriving DecidableEq, Repr

/-- The strict budget pattern of `parse_budget`:
`^\s*([0-9]+(?:\.[0-9]+)?)\s*([kKmM])?\s*$`, applied to the stripped,
comma-free input. Returns the numeric group value and the optional suffix. -/
def matchBudgetPattern (cs0 : List Char) : Option (ℚ × Option Char) :=
  let cs1 := cs0.dropWhile pyWs
  let ds := cs1.takeWhile Char.isDigit
  let cs2 := cs1.drop ds.length
  if ds.isEmpty then none
  else
    let fracState : List Char × List Char :=
      match cs2 with
      | c :: rest =>
          if c = '.' then
            let fs := rest.takeWhile Char.isDigit
            if fs.isEmpty then ([], cs2) else (fs, rest.drop fs.length)
          else ([], cs2)
      | [] => ([], cs2)
    let frac := fracState.1
    let cs4 := fracState.2.dropWhile pyWs
    let sfxState : Option Char × List Char :=
      match cs4 with
      | c :: rest =>
          if c = 'k' ∨ c = 'K' ∨ c = 'm' ∨ c = 'M' then (some c, rest)
          else (none, cs4)
      | [] => (none, [])
    let cs6 := sfxState.2.dropWhile pyWs
    if cs6.isEmpty then some (decValue ds frac, sfxState.1) else none

/-- `app.utils.parse_budget`: strict pattern on the comma-stripped input,
else fall back to stripping every non-digit/non-dot character; fail on
empty input, on nothing parseable, and on a non-positive final value. -/
def parse_budget (raw : String) : Except BudgetErr ℚ :=
  let s := pyStripL raw.data
  if s.isEmpty then .error .noBudget
  else
    match matchBudgetPattern (s.filter (· ≠ ',')) with
    | some (num0, sfx) =>
        let num : ℚ :=
          match sfx with
          | some c =>
              if c = 'k' ∨ c = 'K' then qmul num0 1000 else qmul num0 1000000
          | none => num0
        if num ≤ 0 then .error .notPositive else .ok num
    | none =>
        let cleaned := s.filter fun c => c.isDigit ∨ c = '.'
        if cleaned.isEmpty then .error (.couldNotParse raw)
        else
          match floatDigitsDots cleaned with
          | none => .error (.couldNotParse raw)
          | some v => if v ≤ 0 then .error .notPositive else .ok v

/-! Python `float(str)` on arbitrary strings, used by `next_after_failed`
for its `budget` argument (`float(budget)` — NOT `parse_budget`). -/

/-- Result of a successful Python `float(str)` conversion. -/
inductive PyFloat
  | fin (q : ℚ)
  | inf (neg : Bool)
  | nan
deriving DecidableEq, Repr

/-- A digit run as in Python numeric literals: nonempty, only digits and
underscores, starts and ends with a digit, no two consecutive underscores. -/
def validRun (cs : List Char) : Bool :=
  !cs.isEmpty &&
    cs.all (fun c => c.isDigit || c = '_') &&
    (cs.head?.all Char.isDigit) &&
    (cs.getLast?.all Char.isDigit) &&
    ((cs.zip cs.tail).all fun p => !(p.1 = '_' && p.2 = '_'))

/-- Numeric value of a digit run (underscores ignored). -/
def runVal (cs : List Char) : Nat := digitsToNat (cs.filter Char.isDigit)

/-- Number of digits in a run. -/
def runLen (cs : List Char) : Nat := (cs.filter Char.isDigit).length

/-- Model of CPython `float(str)`: strip whitespace, optional sign, then
either `inf`/`infinity`/`nan` (case-insensitive) or a decimal literal
`[run][.run][(e|E)[sign]run]` with at least one mantissa digit.  `none`
models the raised `ValueError`. -/
def pyFloat (s : String) : Option PyFloat :=
  let cs0 := pyStripL s.data
  let signState : Bool × List Char :=
    match cs0 with
    | c :: rest =>
        if c = '+' then (false, rest)
        else if c = '-' then (true, rest)
        else (false, cs0)
    | [] => (false, [])
  let neg := signState.1
  let cs := signState.2
  let low := cs.map Char.toLower
  if low = "inf".data ∨ low = "infinity".data then some (.inf neg)
  else if low = "nan".data then some .nan
  else
    let ip := cs.takeWhile fun c => c.isDigit || c = '_'
    let cs1 := cs.drop ip.length
    let fracState : Bool × List Char × List Char :=
      match cs1 with
      | c :: rest =>
          if c = '.' then
            let fp := rest.takeWhile fun c => c.isDigit || c = '_'
            (true, fp, rest.drop fp.length)
          else (false, [], cs1)
      | [] => (false, [], [])
    let hasDot := fracState.1
    let fp := fracState.2.1
    let cs2 := fracState.2.2
    let expState : Bool × Bool × List Char × List Char :=
      match cs2 with
      | c :: rest =>
          if c = 'e' ∨ c = 'E' then
            let es : Bool × List Char :=
              match rest with
              | d :: r2 =>
                  if d = '+' then (false, r2)
                  else if d = '-' then (true, r2)
                  else (false, rest)
              | [] => (false, [])
            let ed := es.2.takeWhile fun c => c.isDigit || c = '_'
            (true, es.1, ed, es.2.drop ed.length)
          else (false, false, [], cs2)
      | [] => (false, false, [], [])
    let hasExp := expState.1
    let eneg := expState.2.1
    let ed := expState.2.2.1
    let cs3 := expState.2.2.2
    let mantOk :=
      (validRun ip || ip.isEmpty) && (validRun fp || fp.isEmpty) &&
        (!ip.isEmpty || (hasDot && !fp.isEmpty))
    let expOk := !hasExp || validRun ed
    if mantOk && expOk && cs3.isEmpty then
      let mant := decValue (ip.filter Char.isDigit) (fp.filter Char.isDigit)
      let v := if eneg then qdiv10 mant (runVal ed) else qmul mant (mkRat (10 ^ runVal ed) 1)
      some (.fin (if neg then qneg v else v))
    else none

/-- Python truthiness of a float value (`if budget_val:`). -/
def pyTruthy : PyFloat → Bool
  | .fin q => q ≠ 0
  | .inf _ => true
  | .nan => true

/-- Python `p <= b` where `p` is a finite float and `b` any float
(comparisons with `nan` are false). -/
def pyLE (p : ℚ) : PyFloat → Bool
  | .fin b => p ≤ b
  | .inf neg => !neg
  | .nan => false

/-! ## The data model (`PriceTracker` state) -/

/-- One observed listing, the record built by `PriceTracker.log_price`. -/
structure Item where
  price : Option ℚ
  rating : Option ℚ
  title : String
  raw_price : String
deriving DecidableEq, Repr

/-- The tracker state: best-price index, per-storefront listing ledger
(association lists in dict insertion order), and the failed-open exclusion
set (a duplicate-free list; only membership is observed). -/
structure PriceTracker where
  prices : List (String × ℚ) := []
  items : List (String × List Item) := []
  failed_opens : List String := []
deriving DecidableEq, Repr

/-- The empty tracker created by `PriceTracker.__init__`. -/
def PriceTracker.init : PriceTracker := {}

/-- Association-list lookup, first binding wins (Python dict `[]`/`get`). -/
def lookupA {α : Type} : List (String × α) → String → Option α
  | [], _ => none
  | (k', v) :: rest, k => if k' = k then some v else lookupA rest k

/-- `self.items.setdefault(k, []).append(v)`: append `v` to the list at `k`,
creating the key at the end of the dict if absent. -/
def setdefaultAppend : List (String × List Item) → String → Item →
    List (String × List Item)
  | [], k, v => [(k, [v])]
  | (k', l) :: rest, k, v =>
      if k' = k then (k', l ++ [v]) :: rest
      else (k', l) :: setdefaultAppend rest k v

/-- Dict assignment `m[k] = v`: overwrite in place, or append a new key. -/
def setA : List (String × ℚ) → String → ℚ → List (String × ℚ)
  | [], k, v => [(k, v)]
  | (k', w) :: rest, k, v =>
      if k' = k then (k', v) :: rest else (k', w) :: setA rest k v

/-- `set.add`: insert if absent (only membership is ever observed). -/
def insertNew (s : String) (l : List String) : List String :=
  if s ∈ l then l else l ++ [s]

/-- `PriceTracker._norm_title`: `''` for falsy input, otherwise
`html.escape(str(title).strip().lower())`. -/
def norm_title (t : String) : String :=
  if t = "" then "" else htmlEscapeS (pyLowerS (pyStripS t))

/-- `app_name.lower().strip()` as in `log_price`. -/
def cleanName (app : String) : String := pyStripS (pyLowerS app)

/-! ## Ledger operations -/

/-- Result of `log_price` (the source formats these as strings; the model
keeps the data the string carries).  `error` is the
`"Error: No price, rating or title provided for {app}."` return. -/
inductive LogResult
  | error (app : String)
  | logged (app title : String) (price rating : Option ℚ)
deriving DecidableEq, Repr

/-- `PriceTracker.log_price`.  `price_text`/`rating` are `Option String`
because the source tests `is None`; `title` is a plain string because the
source only tests truthiness (`not title`), for which `None` and `""`
coincide.  Returns the confirmation/error value and the next state. -/
def log_price (app : String) (price_text rating : Option String)
    (title : String) (tr : PriceTracker) : LogResult × PriceTracker :=
  if price_text = none ∧ rating = none ∧ title = "" then (.error app, tr)
  else
    let clean := cleanName app
    let price_val := price_text.bind parse_number
    let rating_val := rating.bind parse_number
    let rec_title := htmlEscapeS (if title = "" then "(unknown)" else title)
    let raw_price := htmlEscapeS (price_text.getD "")
    let record : Item := ⟨price_val, rating_val, rec_title, raw_price⟩
    let items' := setdefaultAppend tr.items clean record
    let prices' :=
      match price_val with
      | some v =>
          match lookupA tr.prices clean with
          | none => setA tr.prices clean v
          | some prev => if v < prev then setA tr.prices clean v else tr.prices
      | none => tr.prices
    (.logged app rec_title price_val rating_val,
      { prices := prices', items := items', failed_opens := tr.failed_opens })

/-- `PriceTracker._score_item`: `rating_or_zero * 10000 - price_or_1e9`
(the `except` branch of the source is unreachable here: prices and ratings
are numbers by construction). -/
def score_item (it : Item) : ℚ :=
  qsub (qmul (it.rating.getD 0) 10000) (it.price.getD 1000000000)

/-- Python `max(l, key=f)` on a nonempty list: the FIRST element attaining
the maximum (later elements replace only when strictly greater). -/
def argmaxBy {α : Type} (f : α → ℚ) (x : α) (xs : List α) : α :=
  xs.foldl (fun b y => if f b < f y then y else b) x

/-- Python `sorted(l, key=f)[0]` on a nonempty list: stable sort, so the
FIRST element attaining the minimum. -/
def argminBy {α : Type} (f : α → ℚ) (x : α) (xs : List α) : α :=
  xs.foldl (fun b y => if f y < f b then y else b) x

/-- A per-storefront candidate `{"app": ..., "item": ..., "score": ...}`. -/
structure Cand where
  app : String
  item : Item
  score : ℚ
deriving DecidableEq, Repr

/-- The per-storefront best of the first two listings, the `per_app` dict
of `compare_and_decide` (max of the sample by composite score, first-seen
wins ties). -/
def perAppBest (items : List (String × List Item)) : List (String × Item) :=
  items.filterMap fun p =>
    match p.2.take 2 with
    | [] => none
    | x :: xs => some (p.1, argmaxBy score_item x xs)

/-- The `price_candidates` of `compare_and_decide`: per-storefront
candidates with a known price within budget, paired with that price. -/
def priceCandidates (b : ℚ) (per_app : List (String × Item)) :
    List (String × ℚ) :=
  per_app.filterMap fun p =>
    match p.2.price with
    | some pr => if pr ≤ b then some (p.1, pr) else none
    | none => none

/-- The `candidates` list of `choose_overall_best`: per-storefront best of
the first `sample_size` listings, with score. -/
def overallCandidates (items : List (String × List Item)) (sample_size : Nat) :
    List Cand :=
  items.filterMap fun p =>
    match p.2.take sample_size with
    | [] => none
    | x :: xs =>
        let bi := argmaxBy score_item x xs
        some ⟨p.1, bi, score_item bi⟩

/-- `PriceTracker.choose_overall_best`: optional budget filter (ignored when
it would empty the set), then maximum composite score. -/
def choose_overall_best (items : List (String × List Item))
    (budget : Option ℚ) (sample_size : Nat) : Option Cand :=
  match overallCandidates items sample_size with
  | [] => none
  | c :: cs =>
      let cands :=
        match budget with
        | none => c :: cs
        | some b =>
            let f := (c :: cs).filter fun cd => cd.item.price.all (· ≤ b)
            if f.isEmpty then c :: cs else f
      match cands with
      | [] => none   -- unreachable: `cands` is the nonempty base or a nonempty filter
      | d :: ds => some (argmaxBy Cand.score d ds)

/-- Selection reasons (the `reason_text` f-strings, by their data). -/
inductive Reason
  /-- "Selected by lower price: {price} on {app}" -/
  | lowerPrice (price : Option ℚ) (app : String)
  /-- "Selected by composite score: {score} on {app}" -/
  | compositeScore (score : ℚ) (app : String)
deriving DecidableEq, Repr

/-- Result of `compare_and_decide` (error dicts by their branch, success
dict by its fields). -/
inductive CompareResult
  /-- {"error": "No collected items."} -/
  | errNoItems
  /-- {"error": "Could not parse budget: {e}"} -/
  | errBudget (e : BudgetErr)
  /-- {"error": "No candidates found."} -/
  | errNoCandidates
  /-- {"error": "Could not determine a best candidate."} -/
  | errNoBest
  /-- {"error": "STOP: Cheapest found {price} on {app} exceeds budget {b}."} -/
  | errBudgetExceeded (price : ℚ) (app : String) (b : ℚ)
  | ok (app title : String) (price rating : Option ℚ) (score : ℚ)
      (reason : Reason)
deriving DecidableEq, Repr

/-- The common tail of `compare_and_decide`: the final budget check and the
result dict. -/
def finishDecision (b : ℚ) (app : String) (it : Item) (score : ℚ)
    (reason : Reason) : CompareResult :=
  match it.price with
  | some p =>
      if b < p then .errBudgetExceeded p app b
      else .ok app it.title it.price it.rating score reason
  | none => .ok app it.title none it.rating score reason

/-- `PriceTracker.compare_and_decide` (budget given as text, as through the
tool boundary).  Ledger check, budget parse, per-storefront 2-item sample,
price-first selection, composite-score fallback, final budget check. -/
def compare_and_decide (tr : PriceTracker) (budget : String) : CompareResult :=
  if tr.items.isEmpty then .errNoItems
  else
    match parse_budget budget with
    | .error e => .errBudget e
    | .ok b =>
        let per_app := perAppBest tr.items
        if per_app.isEmpty then .errNoCandidates
        else
          match priceCandidates b per_app with
          | pc :: pcs =>
              let chosen := argminBy Prod.snd pc pcs
              -- `per_app[chosen_app]`: the key always exists, it came
              -- from `per_app` itself
              let chosen_item := (lookupA per_app chosen.1).getD ⟨none, none, "", ""⟩
              finishDecision b chosen.1 chosen_item (score_item chosen_item)
                (.lowerPrice chosen_item.price chosen.1)
          | [] =>
              match choose_overall_best tr.items (some b) 2 with
              | none => .errNoBest
              | some w =>
                  finishDecision b w.app w.item w.score
                    (.compositeScore w.score w.app)

/-! ## Failure-recovery operations -/

/-- Result of `mark_failed_open` (strings in the source, by their data). -/
inductive MarkResult
  /-- "Error: No product title provided." -/
  | error
  /-- "Marked '{identifier}' as failed to open for {app}." -/
  | marked (app identifier : String)
deriving DecidableEq, Repr

/-- `PriceTracker.mark_failed_open`: no-op error on falsy identifier, else
add the normalized title to the exclusion set. -/
def mark_failed_open (app identifier : String) (tr : PriceTracker) :
    MarkResult × PriceTracker :=
  if identifier = "" then (.error, tr)
  else (.marked app identifier,
    { tr with failed_opens := insertNew (norm_title identifier) tr.failed_opens })

/-- `PriceTracker.should_try`. -/
def should_try (identifier : String) (tr : PriceTracker) : Bool :=
  if identifier = "" then true
  else decide (norm_title identifier ∉ tr.failed_opens)

/-- The per-storefront candidates of `next_after_failed`: best composite
score over the FULL listing list with excluded titles removed (a listing is
removed when its title is truthy and its normalized title is excluded). -/
def nextCandidates (items : List (String × List Item)) (exclude : List String) :
    List Cand :=
  items.filterMap fun p =>
    let filtered := p.2.filter fun it =>
      !(it.title ≠ "" && norm_title it.title ∈ exclude)
    match filtered with
    | [] => none
    | x :: xs =>
        let bi := argmaxBy score_item x xs
        some ⟨p.1, bi, score_item bi⟩

/-- The budget filter of `next_after_failed`: applied only when the
converted budget is truthy, and ignored when it would empty the set. -/
def budgetFilter (cands : List Cand) (bv : Option PyFloat) : List Cand :=
  match bv with
  | some f =>
      if pyTruthy f then
        let fl := cands.filter fun cd => cd.item.price.all fun p => pyLE p f
        if fl.isEmpty then cands else fl
      else cands
  | none => cands

/-- `budget_val = float(budget) if budget else None`: `none` for a falsy
budget, a raised `ValueError` (modelled `.error ()`) when `float` fails. -/
def convertBudget : Option String → Except Unit (Option PyFloat)
  | none => .ok none
  | some s =>
      if s = "" then .ok none
      else
        match pyFloat s with
        | none => .error ()
        | some f => .ok (some f)

/-- Result of `next_after_failed`.  `raised` is an uncaught `ValueError`
escaping the call (there is no handler around `float(budget)`). -/
inductive NextResult
  /-- {"error": "No candidates available after filtering failed items"} -/
  | errNoCandidates
  /-- uncaught ValueError from `float(budget)` -/
  | raised
  | okCand (c : Cand)
deriving DecidableEq, Repr

/-- `PriceTracker.next_after_failed`: mark the identifier failed (its own
errors are swallowed), rebuild candidates from the full ledger minus the
exclusion set, fail when nothing remains, convert the budget with `float`
(raising on bad input), apply the optional budget filter, return the
maximum-score candidate. -/
def next_after_failed (app identifier : String) (budget : Option String)
    (tr : PriceTracker) : NextResult × PriceTracker :=
  let tr1 := (mark_failed_open app identifier tr).2
  match nextCandidates tr1.items tr1.failed_opens with
  | [] => (.errNoCandidates, tr1)
  | c :: cs =>
      match convertBudget budget with
      | .error _ => (.raised, tr1)
      | .ok bv =>
          match budgetFilter (c :: cs) bv with
          | [] => (.errNoCandidates, tr1)   -- unreachable: the filter falls back to the nonempty base
          | d :: ds => (.okCand (argmaxBy Cand.score d ds), tr1)

/-! ## Tool-boundary wrappers (`app/tools.py`) -/

/-- Result of `safe_log_price`. -/
inductive SafeLogResult
  | skippedSponsored
  | result (r : LogResult)
deriving DecidableEq, Repr

/-- `needle` begins `hay` (character-wise). -/
def startsWith : List Char → List Char → Bool
  | [], _ => true
  | _ :: _, [] => false
  | a :: as, b :: bs => a = b && startsWith as bs

/-- Python's `needle in hay` substring test. -/
def substrB (needle : List Char) : List Char → Bool
  | [] => needle.isEmpty
  | c :: rest => startsWith needle (c :: rest) || substrB needle rest

/-- The sponsored filter of `safe_log_price`: case-insensitive substring
match of the four markers against `title + ' ' + price_text`. -/
def sponsoredHit (title : String) (price_text : Option String) : Bool :=
  let combined := pyLowerS (title ++ " " ++ price_text.getD "")
  ["sponsored", "ad", "advertisement", "promoted"].any fun n =>
    substrB n.data combined.data

/-- `safe_log_price`: drop sponsored listings before they reach the ledger,
otherwise delegate to `log_price` (whose modelled paths raise nothing, so
the `except` wrapper is not exercised). -/
def safe_log_price (app : String) (price_text rating : Option String)
    (title : String) (tr : PriceTracker) : SafeLogResult × PriceTracker :=
  if sponsoredHit title price_text then (.skippedSponsored, tr)
  else
    let r := log_price app price_text rating title tr
    (.result r.1, r.2)

/-- `safe_compare_and_decide` / `compare_and_decide` as a state-passing
operation: the source method only reads `self`, so the state is returned
unchanged. -/
def compare_and_decide_op (tr : PriceTracker) (budget : String) :
    CompareResult × PriceTracker :=
  (compare_and_decide tr budget, tr)

/-- `should_try` as a state-passing operation. -/
def should_try_op (tr : PriceTracker) (identifier : String) :
    Bool × PriceTracker :=
  (should_try identifier tr, tr)

/-- `safe_next_candidate`: `tracker.next_after_failed(app_name or '',
identifier or '', budget=budget)` with NO exception handler. -/
def safe_next_candidate (app identifier : String) (budget : Option String)
    (tr : PriceTracker) : NextResult × PriceTracker :=
  next_after_failed app identifier budget tr

/-- Concrete two-storefront scenario from the spec's testable properties:
storefront A priced 1200 with rating 3.0, storefront B priced 1500 with
rating 4.8. -/
def demoTracker : PriceTracker :=
  (log_price "Flipkart" (some "1500") (some "4.8") "Phone B"
    (log_price "Amazon" (some "1200") (some "3.0") "Phone A"
      PriceTracker.init).2).2

/-- The candidate pool that the composite-score fallback maximizes over:
the per-storefront candidates restricted to unknown-or-within-budget
prices, unless that restriction empties the set, in which case all
candidates (the body of `choose_overall_best` at sample size 2). -/
def fallbackPool (items : List (String × List Item)) (b : ℚ) : List Cand :=
  let cands := overallCandidates items 2
  let fl := cands.filter fun c => c.item.price.all (· ≤ b)
  if fl.isEmpty then cands else fl

theorem num_eq_mul_den (a : ℚ) : (a.num : ℚ) = a * a.den := by
  have h : (a.den : ℚ) ≠ 0 := Nat.cast_ne_zero.mpr a.den_nz
  calc (a.num : ℚ) = (a.num / a.den) * a.den := by field_simp
    _ = a * a.den := by rw [Rat.num_div_den]

theorem qadd_eq (a b : ℚ) : qadd a b = a + b := by
  unfold qadd
  rw [Rat.mkRat_eq_div]
  push_cast
  rw [div_eq_iff (by positivity)]
  rw [num_eq_mul_den a, num_eq_mul_den b]
  ring

theorem qmul_eq (a b : ℚ) : qmul a b = a * b := by
  unfold qmul
  rw [Rat.mkRat_eq_div]
  push_cast
  rw [div_eq_iff (by positivity)]
  rw [num_eq_mul_den a, num_eq_mul_den b]
  ring

theorem qsub_eq (a b : ℚ) : qsub a b = a - b := by
  unfold qsub
  rw [Rat.mkRat_eq_div]
  push_cast
  rw [div_eq_iff (by positivity)]
  rw [num_eq_mul_den a, num_eq_mul_den b]
  ring

theorem qdiv10_eq (a : ℚ) (k : Nat) : qdiv10 a k = a / 10 ^ k := by
  unfold qdiv10
  rw [Rat.mkRat_eq_div]
  push_cast
  rw [div_eq_div_iff (by positivity) (by positivity)]
  rw [num_eq_mul_den a]
  ring

theorem qneg_eq (a : ℚ) : qneg a = -a := by
  unfold qneg
  rw [Rat.mkRat_eq_div]
  push_cast
  rw [div_eq_iff (by positivity)]
  rw [num_eq_mul_den a]
  ring

theorem decValue_eq (ip fp : List Char) :
    decValue ip fp = (digitsToNat ip : ℚ) + (digitsToNat fp : ℚ) / 10 ^ fp.length := by
  unfold decValue
  rw [Rat.mkRat_eq_div]
  push_cast
  rw [div_eq_iff (by positivity), add_mul,
    div_mul_cancel₀ ((digitsToNat fp : ℚ)) (by positivity)]

/-! ## Lemmas about the selection helpers -/

theorem argmaxBy_cons {α : Type} (f : α → ℚ) (x y : α) (ys : List α) :
    argmaxBy f x (y :: ys) = argmaxBy f (if f x < f y then y else x) ys := rfl

theorem argmaxBy_mem {α : Type} (f : α → ℚ) (x : α) (xs : List α) :
    argmaxBy f x xs ∈ x :: xs := by
  induction xs generalizing x with
  | nil => simp [argmaxBy]
  | cons y ys ih =>
      rw [argmaxBy_cons]
      by_cases hxy : f x < f y
      · rw [if_pos hxy]
        rcases List.mem_cons.mp (ih y) with h | h <;> simp [h]
      · rw [if_neg hxy]
        rcases List.mem_cons.mp (ih x) with h | h <;> simp [h]

theorem argmaxBy_ge {α : Type} (f : α → ℚ) (x : α) (xs : List α) :
    ∀ y ∈ x :: xs, f y ≤ f (argmaxBy f x xs) := by
  induction xs generalizing x with
  | nil => intro y hy; simp [argmaxBy] at hy ⊢; rw [hy]
  | cons z zs ih =>
      intro y hy
      rw [argmaxBy_cons]
      by_cases hxz : f x < f z
      · rw [if_pos hxz]
        have hbase : f z ≤ f (argmaxBy f z zs) := ih z z (List.mem_cons_self _ _)
        rcases List.mem_cons.mp hy with h | h
        · subst h; exact le_trans (le_of_lt hxz) hbase
        · rcases List.mem_cons.mp h with h' | h'
          · subst h'; exact hbase
          · exact ih z y (List.mem_cons_of_mem _ h')
      · rw [if_neg hxz]
        have hbase : f x ≤ f (argmaxBy f x zs) := ih x x (List.mem_cons_self _ _)
        rcases List.mem_cons.mp hy with h | h
        · subst h; exact hbase
        · rcases List.mem_cons.mp h with h' | h'
          · subst h'; exact le_trans (le_of_not_lt hxz) hbase
          · exact ih x y (List.mem_cons_of_mem _ h')

/-- `argmaxBy` returns the FIRST element attaining the maximum: everything
before it in the list is strictly smaller. -/
theorem argmaxBy_split {α : Type} (f : α → ℚ) (x : α) (xs : List α) :
    ∃ l₁ l₂, x :: xs = l₁ ++ argmaxBy f x xs :: l₂ ∧
      ∀ y ∈ l₁, f y < f (argmaxBy f x xs) := by
  induction xs generalizing x with
  | nil => exact ⟨[], [], by simp [argmaxBy]⟩
  | cons z zs ih =>
      rw [argmaxBy_cons]
      by_cases hxz : f x < f z
      · rw [if_pos hxz]
        rcases ih z with ⟨l₁, l₂, heq, hlt⟩
        refine ⟨x :: l₁, l₂, by simpa using heq, ?_⟩
        intro y hy
        rcases List.mem_cons.mp hy with h | h
        · subst h
          calc f y < f z := hxz
            _ ≤ f (argmaxBy f z zs) := argmaxBy_ge f z zs z (List.mem_cons_self _ _)
        · exact hlt y h
      · rw [if_neg hxz]
        rcases ih x with ⟨l₁, l₂, heq, hlt⟩
        rcases l₁ with _ | ⟨a, l₁'⟩
        · rw [List.nil_append] at heq
          injection heq with h1 h2
          exact ⟨[], z :: zs, by rw [List.nil_append, ← h1], by simp⟩
        · rw [List.cons_append] at heq
          injection heq with h1 h2
          subst h1
          refine ⟨x :: z :: l₁', l₂, by simpa using h2, ?_⟩
          intro y hy
          have hx_lt : f x < f (argmaxBy f x zs) := hlt x (List.mem_cons_self _ _)
          rcases List.mem_cons.mp hy with h | h
          · subst h; exact hx_lt
          · rcases List.mem_cons.mp h with h' | h'
            · subst h'
              exact lt_of_le_of_lt (le_of_not_lt hxz) hx_lt
            · exact hlt y (List.mem_cons_of_mem _ h')

theorem argminBy_cons {α : Type} (f : α → ℚ) (x y : α) (ys : List α) :
    argminBy f x (y :: ys) = argminBy f (if f y < f x then y else x) ys := rfl

theorem argminBy_mem {α : Type} (f : α → ℚ) (x : α) (xs : List α) :
    argminBy f x xs ∈ x :: xs := by
  induction xs generalizing x with
  | nil => simp [argminBy]
  | cons y ys ih =>
      rw [argminBy_cons]
      by_cases hyx : f y < f x
      · rw [if_pos hyx]
        rcases List.mem_cons.mp (ih y) with h | h <;> simp [h]
      · rw [if_neg hyx]
        rcases List.mem_cons.mp (ih x) with h | h <;> simp [h]

theorem argminBy_le {α : Type} (f : α → ℚ) (x : α) (xs : List α) :
    ∀ y ∈ x :: xs, f (argminBy f x xs) ≤ f y := by
  induction xs generalizing x with
  | nil => intro y hy; simp [argminBy] at hy ⊢; rw [hy]
  | cons z zs ih =>
      intro y hy
      rw [argminBy_cons]
      by_cases hzx : f z < f x
      · rw [if_pos hzx]
        have hbase : f (argminBy f z zs) ≤ f z := ih z z (List.mem_cons_self _ _)
        rcases List.mem_cons.mp hy with h | h
        · subst h; exact le_trans hbase (le_of_lt hzx)
        · rcases List.mem_cons.mp h with h' | h'
          · subst h'; exact hbase
          · exact ih z y (List.mem_cons_of_mem _ h')
      · rw [if_neg hzx]
        have hbase : f (argminBy f x zs) ≤ f x := ih x x (List.mem_cons_self _ _)
        rcases List.mem_cons.mp hy with h | h
        · subst h; exact hbase
        · rcases List.mem_cons.mp h with h' | h'
          · subst h'; exact le_trans hbase (le_of_not_lt hzx)
          · exact ih x y (List.mem_cons_of_mem _ h')

/-- `argminBy` returns the FIRST element attaining the minimum (the
stability of Python's `sorted`): everything before it is strictly larger. -/
theorem argminBy_split {α : Type} (f : α → ℚ) (x : α) (xs : List α) :
    ∃ l₁ l₂, x :: xs = l₁ ++ argminBy f x xs :: l₂ ∧
      ∀ y ∈ l₁, f (argminBy f x xs) < f y := by
  induction xs generalizing x with
  | nil => exact ⟨[], [], by simp [argminBy]⟩
  | cons z zs ih =>
      rw [argminBy_cons]
      by_cases hzx : f z < f x
      · rw [if_pos hzx]
        rcases ih z with ⟨l₁, l₂, heq, hlt⟩
        refine ⟨x :: l₁, l₂, by simpa using heq, ?_⟩
        intro y hy
        rcases List.mem_cons.mp hy with h | h
        · subst h
          calc f (argminBy f z zs) ≤ f z :=
              argminBy_le f z zs z (List.mem_cons_self _ _)
            _ < f y := hzx
        · exact hlt y h
      · rw [if_neg hzx]
        rcases ih x with ⟨l₁, l₂, heq, hlt⟩
        rcases l₁ with _ | ⟨a, l₁'⟩
        · rw [List.nil_append] at heq
          injection heq with h1 h2
          exact ⟨[], z :: zs, by rw [List.nil_append, ← h1], by simp⟩
        · rw [List.cons_append] at heq
          injection heq with h1 h2
          subst h1
          refine ⟨x :: z :: l₁', l₂, by simpa using h2, ?_⟩
          intro y hy
          have hx_lt : f (argminBy f x zs) < f x := hlt x (List.mem_cons_self _ _)
          rcases List.mem_cons.mp hy with h | h
          · subst h; exact hx_lt
          · rcases List.mem_cons.mp h with h' | h'
            · subst h'
              exact lt_of_lt_of_le hx_lt (le_of_not_lt hzx)
            · exact hlt y (List.mem_cons_of_mem _ h')

/-! ## Lemmas about the association-list and set helpers -/

theorem lookupA_eq_of_mem_nodup {α : Type} {m : List (String × α)} {k : String}
    {v : α} (hmem : (k, v) ∈ m) (hnd : (m.map Prod.fst).Nodup) :
    lookupA m k = some v := by
  induction m with
  | nil => cases hmem
  | cons p rest ih =>
      obtain ⟨k', w⟩ := p
      rcases List.mem_cons.mp hmem with h | h
      · injection h with h1 h2
        subst h1; subst h2
        simp [lookupA]
      · have hk : k' ≠ k := by
          intro hkk
          subst hkk
          have : k' ∈ rest.map Prod.fst :=
            List.mem_map.mpr ⟨(k', v), h, rfl⟩
          simp only [List.map_cons, List.nodup_cons] at hnd
          exact hnd.1 this
        simp only [lookupA, if_neg hk]
        exact ih h (by simp only [List.map_cons, List.nodup_cons] at hnd; exact hnd.2)

theorem lookupA_setdefaultAppend_self (m : List (String × List Item))
    (k : String) (v : Item) :
    lookupA (setdefaultAppend m k v) k = some ((lookupA m k).getD [] ++ [v]) := by
  induction m with
  | nil => simp [setdefaultAppend, lookupA]
  | cons p rest ih =>
      obtain ⟨k', l⟩ := p
      by_cases h : k' = k
      · subst h
        simp [setdefaultAppend, lookupA]
      · simp [setdefaultAppend, lookupA, h, ih]

theorem lookupA_setdefaultAppend_ne (m : List (String × List Item))
    (k k' : String) (v : Item) (h : k' ≠ k) :
    lookupA (setdefaultAppend m k v) k' = lookupA m k' := by
  induction m with
  | nil => simp [setdefaultAppend, lookupA, Ne.symm h]
  | cons p rest ih =>
      obtain ⟨k₀, l⟩ := p
      by_cases hk : k₀ = k
      · subst hk
        simp [setdefaultAppend, lookupA, Ne.symm h]
      · simp [setdefaultAppend, lookupA, hk, ih]

theorem mem_insertNew (s t : String) (l : List String) :
    t ∈ insertNew s l ↔ t ∈ l ∨ t = s := by
  unfold insertNew
  by_cases h : s ∈ l
  · simp only [if_pos h]
    constructor
    · exact Or.inl
    · rintro (hh | hh)
      · exact hh
      · subst hh; exact h
  · simp [if_neg h]

/-- The storefront keys of `perAppBest` form a sublist of the ledger keys. -/
theorem perAppBest_keys_sublist (items : List (String × List Item)) :
    ((perAppBest items).map Prod.fst).Sublist (items.map Prod.fst) := by
  induction items with
  | nil => simp [perAppBest]
  | cons p rest ih =>
      obtain ⟨k, l⟩ := p
      simp only [perAppBest, List.filterMap_cons]
      cases l.take 2 with
      | nil => exact (ih).cons _
      | cons x xs => exact (ih).cons₂ _

/-- `choose_overall_best`'s candidate list at sample size 2 is `perAppBest`
decorated with scores. -/
theorem overallCandidates_eq_perAppBest (items : List (String × List Item)) :
    overallCandidates items 2 =
      (perAppBest items).map fun p => ⟨p.1, p.2, score_item p.2⟩ := by
  induction items with
  | nil => simp [overallCandidates, perAppBest]
  | cons p rest ih =>
      obtain ⟨k, l⟩ := p
      simp only [overallCandidates, perAppBest, List.filterMap_cons] at ih ⊢
      cases l.take 2 with
      | nil => exact ih
      | cons x xs => simp [ih]

theorem budgetFilter_subset {cands : List Cand} {bv : Option PyFloat} :
    ∀ c ∈ budgetFilter cands bv, c ∈ cands := by
  intro c hc
  cases bv with
  | none => simpa [budgetFilter] using hc
  | some f =>
      simp only [budgetFilter] at hc
      by_cases ht : pyTruthy f
      · rw [if_pos ht] at hc
        by_cases he : (cands.filter fun cd => cd.item.price.all fun p => pyLE p f).isEmpty
        · rw [if_pos he] at hc; exact hc
        · rw [if_neg he] at hc; exact List.mem_of_mem_filter hc
      · rw [if_neg ht] at hc; exact hc

theorem budgetFilter_ne_nil {cands : List Cand} {bv : Option PyFloat}
    (h : cands ≠ []) : budgetFilter cands bv ≠ [] := by
  cases bv with
  | none => simpa [budgetFilter] using h
  | some f =>
      simp only [budgetFilter]
      by_cases ht : pyTruthy f
      · rw [if_pos ht]
        by_cases he : (cands.filter fun cd => cd.item.price.all fun p => pyLE p f).isEmpty
        · rw [if_pos he]; exact h
        · rw [if_neg he]
          intro hc
          rw [hc] at he
          exact he rfl
      · rw [if_neg ht]; exact h

/-! ## Substring lemmas for the sponsored filter -/

theorem startsWith_iff (n h : List Char) :
    startsWith n h = true ↔ ∃ t, h = n ++ t := by
  induction n generalizing h with
  | nil => simp [startsWith]
  | cons a as ih =>
      cases h with
      | nil =>
          simp only [startsWith, List.cons_append]
          constructor
          · intro hc; cases hc
          · rintro ⟨t, ht⟩; cases ht
      | cons b bs =>
          simp only [startsWith, Bool.and_eq_true, decide_eq_true_eq, ih,
            List.cons_append]
          constructor
          · rintro ⟨rfl, t, rfl⟩; exact ⟨t, rfl⟩
          · rintro ⟨t, ht⟩
            injection ht with h1 h2
            exact ⟨h1.symm, t, h2⟩

theorem substrB_iff (n h : List Char) :
    substrB n h = true ↔ ∃ s t, h = s ++ n ++ t := by
  induction h with
  | nil =>
      simp only [substrB, List.isEmpty_iff]
      constructor
      · rintro rfl; exact ⟨[], [], rfl⟩
      · rintro ⟨s, t, ht⟩
        rcases List.append_eq_nil.mp ht.symm with ⟨h1, h2⟩
        exact (List.append_eq_nil.mp h1).2
  | cons c rest ih =>
      simp only [substrB, Bool.or_eq_true, startsWith_iff, ih]
      constructor
      · rintro (⟨t, ht⟩ | ⟨s, t, ht⟩)
        · exact ⟨[], t, by simp [ht]⟩
        · exact ⟨c :: s, t, by simp [ht]⟩
      · rintro ⟨s, t, ht⟩
        cases s with
        | nil => exact Or.inl ⟨t, by simpa using ht⟩
        | cons s0 s' =>
            injection ht with h1 h2
            exact Or.inr ⟨s', t, h2⟩

/-! ## Claim theorems -/

/-- Claim C3: the budget parser returns a strictly positive number or fails:
`parse_budget "14,999" = 14999`, `parse_budget "15k" = 15000`,
`parse_budget "2.5M" = 2500000`, and it fails on `""`, `"0"` and `"abc"`;
every successful parse is strictly positive (it first tries the strict
number-plus-suffix pattern on the comma-stripped input, then the
strip-non-digits fallback, failing when nothing parseable remains or the
final value is non-positive — the structure of `parse_budget` above). -/
theorem C3_parse_budget_contract :
    parse_budget "14,999" = .ok 14999 ∧
    parse_budget "15k" = .ok 15000 ∧
    parse_budget "2.5M" = .ok 2500000 ∧
    parse_budget "" = .error .noBudget ∧
    parse_budget "0" = .error .notPositive ∧
    parse_budget "abc" = .error (.couldNotParse "abc") ∧
    ∀ s v, parse_budget s = .ok v → 0 < v := by
  refine ⟨by decide, by decide, by decide, by decide, by decide, by decide, ?_⟩
  intro s v h
  simp only [parse_budget] at h
  split at h
  · cases h
  · split at h
    · rename_i num0 sfx heq
      split at h
      · cases h
      · rename_i hle
        injection h with hv
        rw [← hv]
        exact lt_of_not_le hle
    · split at h
      · cases h
      · split at h
        · cases h
        · rename_i w heq
          split at h
          · cases h
          · rename_i hle
            injection h with hv
            rw [← hv]
            exact lt_of_not_le hle

/-- Witness for C3: the positivity clause applied at the concrete
input "15k". -/
theorem C3_witness : (0 : ℚ) < 15000 :=
  C3_parse_budget_contract.2.2.2.2.2.2 "15k" 15000 (by decide)

/-- Claim C4, counterexample: the claim "a listing with unknown price scores
lower than any listing with a known finite price and equal rating" fails at
a known price of 2e9 (≥ the 1e9 missing-price sentinel): there the
known-price listing scores LOWER than the unknown-price one. -/
theorem C4_counterexample :
    ¬ (score_item ⟨none, some 0, "u", ""⟩ <
        score_item ⟨some 2000000000, some 0, "k", ""⟩) := by
  decide

/-- Claim C4, amended: the composite score is
`(rating or 0) * 10000 − (price or 1e9)`; it strictly increases with rating
at fixed price, strictly decreases with price at fixed rating, and a
listing with unknown price scores lower than any listing with a known price
STRICTLY BELOW 1e9 and equal rating (for known prices ≥ 1e9 the sentinel
makes the unknown-price listing score at least as high, see
`C4_counterexample`). -/
theorem C4_score_monotone :
    (∀ it : Item, score_item it =
      it.rating.getD 0 * 10000 - it.price.getD 1000000000) ∧
    (∀ (pr : Option ℚ) (t₁ t₂ rp₁ rp₂ : String) (r₁ r₂ : ℚ), r₁ < r₂ →
      score_item ⟨pr, some r₁, t₁, rp₁⟩ < score_item ⟨pr, some r₂, t₂, rp₂⟩) ∧
    (∀ (rt : Option ℚ) (t₁ t₂ rp₁ rp₂ : String) (p₁ p₂ : ℚ), p₁ < p₂ →
      score_item ⟨some p₂, rt, t₁, rp₁⟩ < score_item ⟨some p₁, rt, t₂, rp₂⟩) ∧
    (∀ (rt : Option ℚ) (t₁ t₂ rp₁ rp₂ : String) (p : ℚ), p < 1000000000 →
      score_item ⟨none, rt, t₁, rp₁⟩ < score_item ⟨some p, rt, t₂, rp₂⟩) := by
  have hs : ∀ it : Item, score_item it =
      it.rating.getD 0 * 10000 - it.price.getD 1000000000 := by
    intro it
    simp only [score_item, qsub_eq, qmul_eq]
  refine ⟨hs, ?_, ?_, ?_⟩
  · intro pr t₁ t₂ rp₁ rp₂ r₁ r₂ hr
    rw [hs, hs]
    simp only [Option.getD_some]
    have : r₁ * 10000 < r₂ * 10000 := by linarith
    linarith
  · intro rt t₁ t₂ rp₁ rp₂ p₁ p₂ hp
    rw [hs, hs]
    simp only [Option.getD_some]
    linarith
  · intro rt t₁ t₂ rp₁ rp₂ p hp
    rw [hs, hs]
    simp only [Option.getD_some, Option.getD_none]
    linarith

/-- Witness for C4: the three monotonicity clauses at concrete inputs. -/
theorem C4_witness :
    score_item ⟨some 100, some 3, "a", ""⟩ < score_item ⟨some 100, some 4, "b", ""⟩ ∧
    score_item ⟨some 200, some 3, "a", ""⟩ < score_item ⟨some 100, some 3, "b", ""⟩ ∧
    score_item ⟨none, some 3, "a", ""⟩ < score_item ⟨some 100, some 3, "b", ""⟩ :=
  ⟨C4_score_monotone.2.1 (some 100) "a" "b" "" "" 3 4 (by norm_num),
   C4_score_monotone.2.2.1 (some 3) "a" "b" "" "" 100 200 (by norm_num),
   C4_score_monotone.2.2.2 (some 3) "a" "b" "" "" 100 (by norm_num)⟩

/-- Claim C7: `compare_and_decide` checks the ledger before the budget: on an
empty ledger it fails with the `NoListings` error for EVERY budget string
(parseable or not); only with a non-empty ledger does a failing parse
produce the `InvalidBudget` error. -/
theorem C7_ledger_before_budget (tr : PriceTracker) (bs : String) :
    (tr.items = [] → compare_and_decide tr bs = .errNoItems) ∧
    (tr.items ≠ [] → ∀ e, parse_budget bs = .error e →
      compare_and_decide tr bs = .errBudget e) := by
  constructor
  · intro h
    simp [compare_and_decide, h]
  · intro h e he
    have hne : tr.items.isEmpty = false := by
      simpa [List.isEmpty_iff] using h
    simp [compare_and_decide, hne, he]

/-- Witness for C7: both clauses at concrete states — the empty tracker
with the unparseable budget "abc" fails with `NoListings`, while a
one-listing tracker with the same budget fails with the parse error. -/
theorem C7_witness :
    compare_and_decide PriceTracker.init "abc" = .errNoItems ∧
    compare_and_decide
      (log_price "amazon" (some "999") none "Phone" PriceTracker.init).2 "abc" =
      .errBudget (.couldNotParse "abc") :=
  ⟨(C7_ledger_before_budget PriceTracker.init "abc").1 (by decide),
   (C7_ledger_before_budget
      (log_price "amazon" (some "999") none "Phone" PriceTracker.init).2 "abc").2
      (by decide) (.couldNotParse "abc") (by decide)⟩

/-- Claim C10: `compare_and_decide` and `should_try` are read-only: they
return the tracker state exactly unchanged (every field — ledger,
best-price index, exclusion set), computing the decision fresh.  The source
methods contain no assignment to `self`, so their state-passing embeddings
return the input state. -/
theorem C10_decide_read_only (tr : PriceTracker) (bs identifier : String) :
    (compare_and_decide_op tr bs).2 = tr ∧
    (should_try_op tr identifier).2 = tr :=
  ⟨rfl, rfl⟩

/-- Claim C9: `log_price` returns an error value (never an exception) exactly
when `price_text`, `rating` and `title` are all absent; in the error case
the whole state (ledger and best-price index) is unchanged, and in every
other case exactly one immutable listing record is appended to the given
storefront's list (and no other storefront's list changes, nor the
exclusion set). -/
theorem C9_log_price (tr : PriceTracker) (app : String) (pt r : Option String)
    (title : String) :
    ((∃ a, (log_price app pt r title tr).1 = .error a) ↔
      (pt = none ∧ r = none ∧ title = "")) ∧
    (pt = none ∧ r = none ∧ title = "" → (log_price app pt r title tr).2 = tr) ∧
    (¬(pt = none ∧ r = none ∧ title = "") →
      ∃ record : Item,
        lookupA (log_price app pt r title tr).2.items (cleanName app) =
          some ((lookupA tr.items (cleanName app)).getD [] ++ [record]) ∧
        (∀ a, a ≠ cleanName app →
          lookupA (log_price app pt r title tr).2.items a = lookupA tr.items a) ∧
        (log_price app pt r title tr).2.failed_opens = tr.failed_opens) := by
  by_cases hcond : pt = none ∧ r = none ∧ title = ""
  · refine ⟨⟨fun _ => hcond, fun _ => ⟨app, by simp [log_price, hcond]⟩⟩,
      fun _ => by simp [log_price, hcond], fun h => absurd hcond h⟩
  · refine ⟨⟨?_, fun h => absurd h hcond⟩, fun h => absurd h hcond, fun _ => ?_⟩
    · rintro ⟨a, ha⟩
      simp [log_price, hcond] at ha
    · refine ⟨⟨pt.bind parse_number, r.bind parse_number,
        htmlEscapeS (if title = "" then "(unknown)" else title),
        htmlEscapeS (pt.getD "")⟩, ?_, ?_, ?_⟩
      · simp only [log_price, if_neg hcond]
        exact lookupA_setdefaultAppend_self tr.items (cleanName app) _
      · intro a ha
        simp only [log_price, if_neg hcond]
        exact lookupA_setdefaultAppend_ne tr.items (cleanName app) a _ ha
      · simp only [log_price, if_neg hcond]

/-- Witness for C9: at concrete inputs, the all-absent call returns an
error leaving the empty tracker unchanged, and a call with only a title
appends exactly one record under storefront key "amazon". -/
theorem C9_witness :
    (log_price "Amazon" none none "" PriceTracker.init).2 = PriceTracker.init ∧
    (∃ record : Item,
      lookupA (log_price "Amazon" none none "Phone" PriceTracker.init).2.items
          (cleanName "Amazon") =
        some ((lookupA PriceTracker.init.items (cleanName "Amazon")).getD []
          ++ [record]) ∧
      (∀ a, a ≠ cleanName "Amazon" →
        lookupA (log_price "Amazon" none none "Phone" PriceTracker.init).2.items a =
          lookupA PriceTracker.init.items a) ∧
      (log_price "Amazon" none none "Phone" PriceTracker.init).2.failed_opens =
        PriceTracker.init.failed_opens) :=
  ⟨(C9_log_price PriceTracker.init "Amazon" none none "").2.1
      ⟨rfl, rfl, rfl⟩,
   (C9_log_price PriceTracker.init "Amazon" none none "Phone").2.2
      (by simp)⟩

/-- Claim C8: the ingestion pipeline (`safe_log_price`) drops sponsored
content: when the lowercase concatenation of title and price text contains
one of "sponsored", "ad", "advertisement", "promoted" as a substring, the
call returns `skipped_sponsored` and the tracker state is unchanged; in
particular a listing whose title contains "Sponsored" never reaches the
ledger. -/
theorem C8_sponsored_filter (tr : PriceTracker) (app : String)
    (pt rating : Option String) (title : String) :
    (sponsoredHit title pt = true →
      safe_log_price app pt rating title tr = (.skippedSponsored, tr)) ∧
    (substrB "Sponsored".data title.data = true →
      safe_log_price app pt rating title tr = (.skippedSponsored, tr)) := by
  have main : sponsoredHit title pt = true →
      safe_log_price app pt rating title tr = (.skippedSponsored, tr) := by
    intro h
    simp [safe_log_price, h]
  refine ⟨main, fun h => main ?_⟩
  unfold sponsoredHit
  apply List.any_eq_true.mpr
  refine ⟨"sponsored", by simp, ?_⟩
  rw [substrB_iff]
  obtain ⟨s, t, hst⟩ := (substrB_iff _ _).mp h
  have hmap : "Sponsored".data.map Char.toLower = "sponsored".data := by decide
  refine ⟨s.map Char.toLower,
    t.map Char.toLower ++ (" " ++ pt.getD "").data.map Char.toLower, ?_⟩
  simp only [pyLowerS, String.data_append, hst, List.map_append, hmap,
    List.append_assoc]

/-- Witness for C8: a concrete sponsored listing is skipped and the empty
tracker is unchanged. -/
theorem C8_witness :
    safe_log_price "amazon" (some "999") none "Sponsored Phone"
      PriceTracker.init = (.skippedSponsored, PriceTracker.init) :=
  (C8_sponsored_filter PriceTracker.init "amazon" (some "999") none
    "Sponsored Phone").2 (by decide)

/-- Claim C6, refuted by the code: the claim says every exposed
operation returns a value and never raises across the tool boundary; but
`safe_next_candidate` has no exception handler and `next_after_failed`
converts its budget with bare `float(budget)`, so a suffixed budget string
such as "15k" raises an uncaught `ValueError` once the ledger holds any
candidate: evaluated on a one-listing tracker, the call reaches the raise
(modelled `NextResult.raised` escaping the boundary). -/
theorem C6_next_candidate_raises :
    (safe_next_candidate "amazon" "other" (some "15k")
        (log_price "amazon" (some "999") none "Phone" PriceTracker.init).2).1 =
      .raised := by
  decide

/-- Claim C1: whenever the budget parses and at least one per-storefront
sample candidate (max composite score over the first 2 listings, first-seen
on ties) has a known price within budget, `compare_and_decide` succeeds and
returns the candidate with the LOWEST such price — ties broken by
storefront iteration order (everything strictly earlier in the
price-candidate list is strictly more expensive) — with the price-based
selection reason.  The `Nodup` hypothesis states that the ledger keys are
those of a Python dict. -/
theorem C1_price_first (tr : PriceTracker) (bs : String) (b : ℚ)
    (hnd : (tr.items.map Prod.fst).Nodup)
    (hb : parse_budget bs = .ok b)
    (hel : priceCandidates b (perAppBest tr.items) ≠ []) :
    ∃ (a : String) (it : Item) (p : ℚ) (l₁ l₂ : List (String × ℚ)),
      (a, it) ∈ perAppBest tr.items ∧
      it.price = some p ∧ p ≤ b ∧
      (∀ q ∈ priceCandidates b (perAppBest tr.items), p ≤ q.2) ∧
      priceCandidates b (perAppBest tr.items) = l₁ ++ (a, p) :: l₂ ∧
      (∀ q ∈ l₁, p < q.2) ∧
      compare_and_decide tr bs =
        .ok a it.title it.price it.rating (score_item it)
          (.lowerPrice it.price a) := by
  obtain ⟨pc, pcs, heq⟩ : ∃ pc pcs,
      priceCandidates b (perAppBest tr.items) = pc :: pcs := by
    cases hpc : priceCandidates b (perAppBest tr.items) with
    | nil => exact absurd hpc hel
    | cons pc pcs => exact ⟨pc, pcs, rfl⟩
  have hpa : perAppBest tr.items ≠ [] := by
    intro hh
    rw [hh] at heq
    cases heq
  have hitems : tr.items ≠ [] := by
    intro hh
    apply hpa
    rw [hh]
    rfl
  have hne_items : tr.items.isEmpty = false := by
    simpa [List.isEmpty_iff] using hitems
  have hpa_ne : (perAppBest tr.items).isEmpty = false := by
    simpa [List.isEmpty_iff] using hpa
  -- the chosen price candidate
  have hmem : argminBy Prod.snd pc pcs ∈ priceCandidates b (perAppBest tr.items) := by
    rw [heq]
    exact argminBy_mem _ pc pcs
  obtain ⟨⟨a, it⟩, hmem_pa, hf⟩ :=
    List.mem_filterMap.mp (by simpa only [priceCandidates] using hmem)
  cases hpr : it.price with
  | none =>
      have hnone : (none : Option (String × ℚ)) =
          some (argminBy Prod.snd pc pcs) := by
        rw [hpr] at hf
        exact hf
      cases hnone
  | some pr =>
      have hf' : (if pr ≤ b then some (a, pr) else none) =
          some (argminBy Prod.snd pc pcs) := by
        rw [hpr] at hf
        exact hf
      by_cases hle : pr ≤ b
      · rw [if_pos hle] at hf'
        injection hf' with hf'
        have hchosen : argminBy Prod.snd pc pcs = (a, pr) := hf'.symm
        have hnd_pa : ((perAppBest tr.items).map Prod.fst).Nodup :=
          hnd.sublist (perAppBest_keys_sublist tr.items)
        have hlook : lookupA (perAppBest tr.items) a = some it :=
          lookupA_eq_of_mem_nodup hmem_pa hnd_pa
        obtain ⟨l₁, l₂, hsplit, hbefore⟩ := argminBy_split Prod.snd pc pcs
        rw [hchosen] at hsplit hbefore
        refine ⟨a, it, pr, l₁, l₂, hmem_pa, hpr, hle, ?_, ?_, ?_, ?_⟩
        · intro q hq
          rw [heq] at hq
          have := argminBy_le Prod.snd pc pcs q hq
          rw [hchosen] at this
          exact this
        · rw [heq, hsplit]
        · intro q hq
          exact hbefore q hq
        · simp only [compare_and_decide, hne_items, Bool.false_eq_true,
            if_false, hb, hpa_ne, heq]
          rw [hchosen]
          simp only [lookupA, hlook, Option.getD_some]
          simp only [finishDecision, hpr, if_neg (not_lt.mpr hle)]
      · rw [if_neg hle] at hf'
        cases hf'

/-- Witness for C1: the spec's concrete example — A at 1200 (rating 3.0),
B at 1500 (rating 4.8), budget 2000 — where the theorem's conclusion forces
the selection of storefront "amazon" by lower price. -/
theorem C1_witness :
    ∃ (a : String) (it : Item) (p : ℚ) (l₁ l₂ : List (String × ℚ)),
      (a, it) ∈ perAppBest demoTracker.items ∧
      it.price = some p ∧ p ≤ 2000 ∧
      (∀ q ∈ priceCandidates 2000 (perAppBest demoTracker.items), p ≤ q.2) ∧
      priceCandidates 2000 (perAppBest demoTracker.items) = l₁ ++ (a, p) :: l₂ ∧
      (∀ q ∈ l₁, p < q.2) ∧
      compare_and_decide demoTracker "2000" =
        .ok a it.title it.price it.rating (score_item it)
          (.lowerPrice it.price a) :=
  C1_price_first demoTracker "2000" 2000 (by decide) (by decide) (by decide)

theorem fallbackPool_subset (items : List (String × List Item)) (b : ℚ) :
    ∀ c ∈ fallbackPool items b, c ∈ overallCandidates items 2 := by
  intro c hc
  unfold fallbackPool at hc
  by_cases he : ((overallCandidates items 2).filter
      fun c => c.item.price.all (· ≤ b)).isEmpty
  · rw [if_pos he] at hc; exact hc
  · rw [if_neg he] at hc; exact List.mem_of_mem_filter hc

/-- `choose_overall_best` at sample size 2 with a budget picks the first
maximum-score element of `fallbackPool`. -/
theorem choose_overall_best_eq_pool (items : List (String × List Item))
    (b : ℚ) (h : overallCandidates items 2 ≠ []) :
    ∃ d ds, fallbackPool items b = d :: ds ∧
      choose_overall_best items (some b) 2 = some (argmaxBy Cand.score d ds) := by
  obtain ⟨c, cs, heq⟩ : ∃ c cs, overallCandidates items 2 = c :: cs := by
    cases hh : overallCandidates items 2 with
    | nil => exact absurd hh h
    | cons c cs => exact ⟨c, cs, rfl⟩
  have hpool : fallbackPool items b =
      (if ((c :: cs).filter fun cd => cd.item.price.all (· ≤ b)).isEmpty
        then c :: cs
        else (c :: cs).filter fun cd => cd.item.price.all (· ≤ b)) := by
    unfold fallbackPool
    rw [heq]
  by_cases he : ((c :: cs).filter fun cd => cd.item.price.all (· ≤ b)).isEmpty
  · refine ⟨c, cs, by rw [hpool, if_pos he], ?_⟩
    simp only [choose_overall_best, heq, if_pos he]
  · obtain ⟨d, ds, hfl⟩ : ∃ d ds,
        (c :: cs).filter (fun cd => cd.item.price.all (· ≤ b)) = d :: ds := by
      cases hh : (c :: cs).filter fun cd => cd.item.price.all (· ≤ b) with
      | nil => rw [hh] at he; exact absurd rfl he
      | cons d ds => exact ⟨d, ds, rfl⟩
    refine ⟨d, ds, by rw [hpool, if_neg he, hfl], ?_⟩
    simp only [choose_overall_best, heq, if_neg he, hfl, List.isEmpty_cons,
      Bool.false_eq_true, if_false]

/-- Claim C2: when the budget parses, at least one storefront yields a sample
candidate, but none has a known price within budget, `compare_and_decide`
falls back to composite score over the pool obtained by restricting the
candidates to unknown-or-within-budget prices unless that restriction is
empty (then all candidates); it picks the maximum composite score
(first-seen on ties — everything strictly earlier in the pool scores
strictly lower), reports a score-based reason, and fails with the
`BudgetExceeded` error exactly when the selected candidate's price is known
and exceeds the budget. -/
theorem C2_fallback_composite (tr : PriceTracker) (bs : String) (b : ℚ)
    (hb : parse_budget bs = .ok b)
    (hpa : perAppBest tr.items ≠ [])
    (hpc : priceCandidates b (perAppBest tr.items) = []) :
    ∃ (w : Cand) (l₁ l₂ : List Cand),
      w ∈ overallCandidates tr.items 2 ∧
      fallbackPool tr.items b = l₁ ++ w :: l₂ ∧
      (∀ y ∈ l₁, y.score < w.score) ∧
      (∀ y ∈ fallbackPool tr.items b, y.score ≤ w.score) ∧
      compare_and_decide tr bs =
        (match w.item.price with
         | some p =>
             if b < p then .errBudgetExceeded p w.app b
             else .ok w.app w.item.title w.item.price w.item.rating w.score
               (.compositeScore w.score w.app)
         | none => .ok w.app w.item.title none w.item.rating w.score
             (.compositeScore w.score w.app)) := by
  have hoc : overallCandidates tr.items 2 ≠ [] := by
    rw [overallCandidates_eq_perAppBest]
    intro hh
    exact hpa (List.map_eq_nil_iff.mp hh)
  obtain ⟨d, ds, hpool, hchoose⟩ := choose_overall_best_eq_pool tr.items b hoc
  set w := argmaxBy Cand.score d ds with hw
  have hw_mem_pool : w ∈ fallbackPool tr.items b := by
    rw [hpool]
    exact argmaxBy_mem _ d ds
  have hw_mem : w ∈ overallCandidates tr.items 2 :=
    fallbackPool_subset tr.items b w hw_mem_pool
  obtain ⟨l₁, l₂, hsplit, hbefore⟩ := argmaxBy_split Cand.score d ds
  have hitems : tr.items ≠ [] := by
    intro hh
    apply hpa
    rw [hh]
    rfl
  have hne_items : tr.items.isEmpty = false := by
    simpa [List.isEmpty_iff] using hitems
  have hpa_ne : (perAppBest tr.items).isEmpty = false := by
    simpa [List.isEmpty_iff] using hpa
  refine ⟨w, l₁, l₂, hw_mem, by rw [hpool]; exact hsplit, hbefore, ?_, ?_⟩
  · intro y hy
    rw [hpool] at hy
    exact argmaxBy_ge Cand.score d ds y hy
  · simp only [compare_and_decide, hne_items, Bool.false_eq_true, if_false,
      hb, hpa_ne, hpc, hchoose]
    cases hwp : w.item.price with
    | some p => simp only [finishDecision, hwp]
    | none => simp only [finishDecision, hwp]

/-- Witness for C2: the two-storefront scenario with budget 1000 — no known
price is within budget, the fallback selects flipkart by composite score,
and the final check fails with the budget-exceeded error (price 1500 over
budget 1000). -/
theorem C2_witness :
    ∃ (w : Cand) (l₁ l₂ : List Cand),
      w ∈ overallCandidates demoTracker.items 2 ∧
      fallbackPool demoTracker.items 1000 = l₁ ++ w :: l₂ ∧
      (∀ y ∈ l₁, y.score < w.score) ∧
      (∀ y ∈ fallbackPool demoTracker.items 1000, y.score ≤ w.score) ∧
      compare_and_decide demoTracker "1000" =
        (match w.item.price with
         | some p =>
             if 1000 < p then .errBudgetExceeded p w.app 1000
             else .ok w.app w.item.title w.item.price w.item.rating w.score
               (.compositeScore w.score w.app)
         | none => .ok w.app w.item.title none w.item.rating w.score
             (.compositeScore w.score w.app)) :=
  C2_fallback_composite demoTracker "1000" 1000 (by decide) (by decide)
    (by decide)

/-- Claim C5: `next_after_failed` first adds the normalized identifier to the
exclusion set (leaving the ledger untouched), then draws per-storefront
candidates from the FULL (unsampled) listing lists with excluded titles
removed, optionally budget-filtered (unless that empties the set): any
returned candidate comes from the ledger, its normalized title is NOT in
the updated exclusion set (which contains every previously marked-failed
title, so repeated failures never resurface), it maximizes the composite
score over the filtered pool, and the call fails with the `NoCandidates`
error exactly when nothing survives the exclusion.  The `htitles`
hypothesis is the ledger invariant that recorded titles are nonempty
(`log_price` stores `"(unknown)"` for missing titles). -/
theorem C5_next_candidate (tr : PriceTracker) (app identifier : String)
    (budget : Option String)
    (hid : identifier ≠ "")
    (htitles : ∀ p ∈ tr.items, ∀ it ∈ p.2, it.title ≠ "") :
    (next_after_failed app identifier budget tr).2.items = tr.items ∧
    (next_after_failed app identifier budget tr).2.failed_opens =
      insertNew (norm_title identifier) tr.failed_opens ∧
    (∀ c, (next_after_failed app identifier budget tr).1 = .okCand c →
      norm_title c.item.title ∉
        (next_after_failed app identifier budget tr).2.failed_opens ∧
      (∃ p ∈ tr.items, c.app = p.1 ∧ c.item ∈ p.2) ∧
      ∃ bv, convertBudget budget = .ok bv ∧
        c ∈ budgetFilter (nextCandidates tr.items
          (insertNew (norm_title identifier) tr.failed_opens)) bv ∧
        ∀ y ∈ budgetFilter (nextCandidates tr.items
          (insertNew (norm_title identifier) tr.failed_opens)) bv,
          y.score ≤ c.score) ∧
    ((next_after_failed app identifier budget tr).1 = .errNoCandidates ↔
      nextCandidates tr.items
        (insertNew (norm_title identifier) tr.failed_opens) = []) := by
  have htr1 : (mark_failed_open app identifier tr).2 =
      { tr with failed_opens := insertNew (norm_title identifier) tr.failed_opens } := by
    simp [mark_failed_open, hid]
  set excl := insertNew (norm_title identifier) tr.failed_opens with hexcl
  cases hcands : nextCandidates tr.items excl with
  | nil =>
      have hres : next_after_failed app identifier budget tr =
          (.errNoCandidates, { tr with failed_opens := excl }) := by
        simp only [next_after_failed, htr1, hcands]
      rw [hres]
      refine ⟨rfl, rfl, ?_, by simp⟩
      intro c hc
      cases hc
  | cons c cs =>
      cases hcb : convertBudget budget with
      | error e =>
          have hres : next_after_failed app identifier budget tr =
              (.raised, { tr with failed_opens := excl }) := by
            simp only [next_after_failed, htr1, hcands, hcb]
          rw [hres]
          refine ⟨rfl, rfl, ?_, by simp [hcands]⟩
          intro c' hc'
          cases hc'
      | ok bv =>
          cases hbf : budgetFilter (c :: cs) bv with
          | nil => exact absurd hbf (budgetFilter_ne_nil (by simp))
          | cons d ds =>
              have hres : next_after_failed app identifier budget tr =
                  (.okCand (argmaxBy Cand.score d ds),
                    { tr with failed_opens := excl }) := by
                simp only [next_after_failed, htr1, hcands, hcb, hbf]
              rw [hres]
              refine ⟨rfl, rfl, ?_, by simp [hcands]⟩
              intro c' hc'
              injection hc' with hc'
              subst hc'
              set w := argmaxBy Cand.score d ds with hw
              have hw_dd : w ∈ d :: ds := by
                rw [hw]
                exact argmaxBy_mem _ d ds
              have hw_bf : w ∈ budgetFilter (c :: cs) bv := by
                rw [hbf]
                exact hw_dd
              have hw_cands : w ∈ nextCandidates tr.items excl := by
                rw [hcands]
                exact budgetFilter_subset w hw_bf
              obtain ⟨p, hp_mem, hf⟩ :=
                List.mem_filterMap.mp (by simpa only [nextCandidates] using hw_cands)
              cases hflt : p.2.filter (fun it =>
                  !(it.title ≠ "" && norm_title it.title ∈ excl)) with
              | nil =>
                  have : (none : Option Cand) = some w := by
                    rw [hflt] at hf
                    exact hf
                  cases this
              | cons x xs =>
                  have hf' : some (⟨p.1, argmaxBy score_item x xs,
                      score_item (argmaxBy score_item x xs)⟩ : Cand) = some w := by
                    rw [hflt] at hf
                    exact hf
                  injection hf' with hf'
                  have hitem_mem_flt : w.item ∈ p.2.filter (fun it =>
                      !(it.title ≠ "" && norm_title it.title ∈ excl)) := by
                    rw [hflt, ← hf']
                    exact argmaxBy_mem score_item x xs
                  have hitem_mem : w.item ∈ p.2 :=
                    List.mem_of_mem_filter hitem_mem_flt
                  have hpred := List.of_mem_filter hitem_mem_flt
                  have htitle : w.item.title ≠ "" :=
                    htitles p hp_mem w.item hitem_mem
                  have hnotin : norm_title w.item.title ∉ excl := by
                    intro hin
                    rw [Bool.not_eq_true', Bool.and_eq_false_iff] at hpred
                    rcases hpred with h | h
                    · rw [decide_eq_false_iff_not] at h
                      exact h htitle
                    · rw [decide_eq_false_iff_not] at h
                      exact h hin
                  refine ⟨hnotin, ⟨p, hp_mem, ?_, hitem_mem⟩,
                    bv, rfl, ?_, ?_⟩
                  · rw [← hf']
                  · exact hw_bf
                  · intro y hy
                    rw [hbf] at hy
                    exact argmaxBy_ge Cand.score d ds y hy

/-- Witness for C5: the two-storefront scenario after storefront A's
"Phone A" fails to open — the theorem's conclusion holds concretely (and
forces the replacement candidate, flipkart's "Phone B"). -/
theorem C5_witness :
    (next_after_failed "amazon" "Phone A" none demoTracker).2.items =
      demoTracker.items ∧
    (next_after_failed "amazon" "Phone A" none demoTracker).2.failed_opens =
      insertNew (norm_title "Phone A") demoTracker.failed_opens ∧
    (∀ c, (next_after_failed "amazon" "Phone A" none demoTracker).1 = .okCand c →
      norm_title c.item.title ∉
        (next_after_failed "amazon" "Phone A" none demoTracker).2.failed_opens ∧
      (∃ p ∈ demoTracker.items, c.app = p.1 ∧ c.item ∈ p.2) ∧
      ∃ bv, convertBudget none = .ok bv ∧
        c ∈ budgetFilter (nextCandidates demoTracker.items
          (insertNew (norm_title "Phone A") demoTracker.failed_opens)) bv ∧
        ∀ y ∈ budgetFilter (nextCandidates demoTracker.items
          (insertNew (norm_title "Phone A") demoTracker.failed_opens)) bv,
          y.score ≤ c.score) ∧
    ((next_after_failed "amazon" "Phone A" none demoTracker).1 =
        .errNoCandidates ↔
      nextCandidates demoTracker.items
        (insertNew (norm_title "Phone A") demoTracker.failed_opens) = []) :=
  C5_next_candidate demoTracker "amazon" "Phone A" none (by decide) (by decide)

end Shopper
